import Mathlib

/-!
# Verification of the telegram-redirect attribution-code core

A shallow embedding, in Lean 4, of the attribution-code lifecycle of the
telegram-redirect service: the code codec (`src/lib/code.ts`), the two
storage backends (`src/lib/storage/memory.ts`, `src/lib/storage/sqlite.ts`),
the resolution-cache handler (`src/routes/resolve.ts`) and the redirect
orchestrator (`src/routes/tg.ts`), together with theorems settling the
specification's claims about them.

Modelling conventions:
- JS strings are Lean `String`s; character-level operations go through
  `String.data` (`String.length` is definitionally `data.length`).
- Machine randomness and the Node `crypto` HMAC are environment effects, so
  they enter the model as explicit arguments: a list of random bytes and a
  function `hmacBytes : String → String → List Nat` standing for
  `createHmac('sha256', secret).update(payload).digest()` (a 32-byte digest).
- `new Date().toISOString()` readings are abstracted to `Nat` clock values;
  monotonicity of the clock becomes an explicit hypothesis where needed.
- JS reference semantics, where a claim depends on it, is modelled with an
  explicit object heap: nested `attribution` / click-log objects live in
  heaps indexed by `Nat` addresses, and object fields of type "reference"
  hold such addresses.  Copying a record value models `{ ...obj }` (a fresh
  object with the same field contents, references included).
-/

namespace TelegramRedirect

/-! ## Code codec (`src/lib/code.ts`) -/

/-- `MAX_CODE_LENGTH` from code.ts: maximum code length per Telegram. -/
def MAX_CODE_LENGTH : Nat := 64

/-- `RANDOM_BYTES` from code.ts: random bytes drawn per code. -/
def RANDOM_BYTES : Nat := 16

/-- `SIGNATURE_LENGTH` from code.ts: truncated signature length. -/
def SIGNATURE_LENGTH : Nat := 8

/-- The base64url alphabet, in index order (RFC 4648 §5), used by
`Buffer.toString('base64url')`. -/
def b64Alphabet : List Char :=
  "ABCDEFGHIJKLMNOPQRSTUVWXYZabcdefghijklmnopqrstuvwxyz0123456789-_".data

/-- The base64url character for a 6-bit group. -/
def b64Char (n : Nat) : Char := b64Alphabet.getD (n % 64) 'A'

/-- `Buffer.toString('base64url')`: base64url encoding without padding,
three input bytes per four output characters. -/
def base64urlEncode : List Nat → List Char
  | [] => []
  | [b1] => [b64Char (b1 / 4), b64Char (b1 % 4 * 16)]
  | [b1, b2] =>
      [b64Char (b1 / 4), b64Char (b1 % 4 * 16 + b2 / 16), b64Char (b2 % 16 * 4)]
  | b1 :: b2 :: b3 :: rest =>
      b64Char (b1 / 4) :: b64Char (b1 % 4 * 16 + b2 / 16) ::
      b64Char (b2 % 16 * 4 + b3 / 64) :: b64Char (b3 % 64) :: base64urlEncode rest

/-- Output length of `base64urlEncode` as a function of the byte count. -/
def b64EncLen : Nat → Nat
  | 0 => 0
  | 1 => 2
  | 2 => 3
  | n + 3 => 4 + b64EncLen n

/-- `createSignature` from code.ts: base64url HMAC digest of the payload,
truncated to `SIGNATURE_LENGTH` characters.  `hmacBytes secret payload`
stands for the raw 32-byte SHA-256 HMAC digest. -/
def createSignature (hmacBytes : String → String → List Nat)
    (secret payload : String) : String :=
  String.mk ((base64urlEncode (hmacBytes secret payload)).take SIGNATURE_LENGTH)

/-- The constant-time comparison loop body of `verifySignature`. -/
def xorStep (r : Nat) (p : Char × Char) : Nat :=
  r ||| (p.1.toNat ^^^ p.2.toNat)

/-- `verifySignature` from code.ts: recompute the expected signature and
compare it with the presented one in constant time. -/
def verifySignature (hmacBytes : String → String → List Nat)
    (secret payload signature : String) : Bool :=
  let expectedSig := createSignature hmacBytes secret payload
  if expectedSig.length ≠ signature.length then false
  else ((expectedSig.data.zip signature.data).foldl xorStep 0) == 0

/-- `generateCode` from code.ts: random part concatenated with its
truncated signature, with the fatal length check.  The random bytes are an
explicit argument (drawn by `randomBytes(RANDOM_BYTES)` in the source). -/
def generateCode (hmacBytes : String → String → List Nat)
    (secret : String) (rnd : List Nat) : Except String String :=
  let random := String.mk (base64urlEncode rnd)
  let signature := createSignature hmacBytes secret random
  let code := random ++ signature
  if code.length > MAX_CODE_LENGTH then
    Except.error "Generated code exceeds maximum length"
  else
    Except.ok code

/-- Membership in the `[A-Za-z0-9_-]` character class of code.ts. -/
def isCodeChar (c : Char) : Bool := c.isAlphanum || c == '_' || c == '-'

/-- `validateCode` from code.ts: length window, charset, then signature
verification on the fixed payload/signature split. -/
def validateCode (hmacBytes : String → String → List Nat)
    (secret : String) (code : String) : Bool :=
  if code.data.isEmpty || code.length < SIGNATURE_LENGTH + 10 ||
      code.length > MAX_CODE_LENGTH then
    false
  else if ¬ (code.data.all isCodeChar) then
    false
  else
    let payload := String.mk (code.data.take (code.data.length - SIGNATURE_LENGTH))
    let signature := String.mk (code.data.drop (code.data.length - SIGNATURE_LENGTH))
    verifySignature hmacBytes secret payload signature

/-- `isValidCodeFormat` from code.ts: cheap syntactic check only. -/
def isValidCodeFormat (code : String) : Bool :=
  if code.data.isEmpty then false
  else if code.length > MAX_CODE_LENGTH then false
  else code.data.all isCodeChar

/-! ## Data model (`src/types.ts`)

Timestamps (`createdAt`, `resolvedAt`, `timestamp`) are ISO-8601 strings in
the source, produced by `new Date().toISOString()`; they are abstracted to
`Nat` clock readings here, with clock monotonicity an explicit hypothesis
where a claim needs it. -/

/-- `UTMParams` from types.ts (five optional keys). -/
structure UTMParams where
  utm_source : Option String := none
  utm_medium : Option String := none
  utm_campaign : Option String := none
  utm_term : Option String := none
  utm_content : Option String := none
deriving DecidableEq

/-- `DeviceInfo` from types.ts (the `type` union is kept as a string). -/
structure DeviceInfo where
  type : String
  os : String
  browser : String
  hasTelegramApp : Bool
deriving DecidableEq

/-- `ClickAttribution` from types.ts. -/
structure ClickAttribution where
  slug : String
  timestamp : Nat
  utm : UTMParams
  extraParams : List (String × String)
  ipHash : String
  userAgent : String
  device : DeviceInfo
  requestId : String
deriving DecidableEq

/-- `CodeMapping` as a memory-backend heap object: in JS the nested
`attribution` field holds a reference, modelled as an address `attrRef`
into an attribution heap.  Copying this record models `{ ...mapping }`
(a shallow copy: fresh object, shared nested reference). -/
structure MemMapping where
  code : String
  attrRef : Nat
  botUsername : String
  createdAt : Nat
  resolved : Bool
  resolvedAt : Option Nat := none
deriving DecidableEq

/-- `ClickLog` from types.ts. -/
structure ClickLog where
  requestId : String
  slug : String
  timestamp : Nat
  ipHash : String
  userAgent : String
  redirectTarget : String
  code : Option String := none
  queryParams : List (String × String) := []
deriving DecidableEq

/-! ## In-memory storage (`src/lib/storage/memory.ts`) -/

/-- `MAX_CLICK_LOGS` from memory.ts. -/
def MAX_CLICK_LOGS : Nat := 10000

/-- The module state of memory.ts: the `codeMappings` map and `clickLogs`
array, plus explicit heaps of the attribution and click-log objects those
refer to (making JS reference sharing observable). -/
structure MemState where
  attrHeap : List ClickAttribution := []
  logHeap : List ClickLog := []
  codeMappings : List (String × MemMapping) := []
  clickLogs : List Nat := []
deriving DecidableEq

/-- JS `Map.get`. -/
def mapGet {α : Type} (m : List (String × α)) (k : String) : Option α :=
  (m.find? (·.1 == k)).map (·.2)

/-- JS `Map.set`: replace in place when the key exists, else append. -/
def mapSet {α : Type} (m : List (String × α)) (k : String) (v : α) :
    List (String × α) :=
  if m.any (·.1 == k) then m.map (fun p => if p.1 == k then (k, v) else p)
  else m ++ [(k, v)]

/-- JS `Map.delete`. -/
def mapDelete {α : Type} (m : List (String × α)) (k : String) :
    List (String × α) :=
  m.filter (fun p => ¬ (p.1 == k))

/-- memory.ts `storeCode`: `codeMappings.set(mapping.code, { ...mapping })`.
The spread is a shallow copy: with record values this is the value itself,
nested `attrRef` included. -/
def memStoreCode (s : MemState) (m : MemMapping) : MemState :=
  { s with codeMappings := mapSet s.codeMappings m.code m }

/-- memory.ts `getCode`: return `{ ...mapping }` — a shallow copy; the
returned record carries the same `attrRef` as the stored one. -/
def memGetCode (s : MemState) (code : String) : Option MemMapping :=
  mapGet s.codeMappings code

/-- The `codeMappings`-level effect of memory.ts `markResolved`: mutate
the stored mapping in place, setting `resolved` and `resolvedAt` to the
current clock reading `now`; no mapping, no effect. -/
def mapMarkResolved (M : List (String × MemMapping)) (code : String)
    (now : Nat) : List (String × MemMapping) :=
  match mapGet M code with
  | none => M
  | some m =>
      let m2 : MemMapping := { m with resolved := true, resolvedAt := some now }
      mapSet M code m2

/-- memory.ts `markResolved`. -/
def memMarkResolved (s : MemState) (code : String) (now : Nat) : MemState :=
  { s with codeMappings := mapMarkResolved s.codeMappings code now }

/-- memory.ts `deleteCode`. -/
def memDeleteCode (s : MemState) (code : String) : MemState :=
  { s with codeMappings := mapDelete s.codeMappings code }

/-- memory.ts `logClick`: push `{ ...log }` (a fresh log object) onto the
array, evicting the oldest entry beyond `MAX_CLICK_LOGS`. -/
def memLogClick (s : MemState) (log : ClickLog) : MemState :=
  let refs := s.clickLogs ++ [s.logHeap.length]
  { s with
      logHeap := s.logHeap ++ [log],
      clickLogs := if refs.length > MAX_CLICK_LOGS then refs.drop 1 else refs }

/-- memory.ts `getClickLogs`: filter by slug, keep the last `limit`
entries, reversed.  The result is a list of references to the stored log
objects themselves (`filter`/`slice`/`reverse` copy no elements). -/
def memGetClickLogs (s : MemState) (slug : String) (limit : Nat) : List Nat :=
  let refs := s.clickLogs.filter (fun r =>
    match s.logHeap.get? r with
    | some log => log.slug == slug
    | none => false)
  (if limit = 0 then refs else refs.drop (refs.length - limit)).reverse

/-- Dereference an attribution object (reading `m.attribution` in JS). -/
def derefAttr (s : MemState) (r : Nat) : Option ClickAttribution :=
  s.attrHeap.get? r

/-- Caller-side mutation of an attribution object through a reference
(e.g. `returned.attribution.slug = v` writes through the shared object). -/
def heapWriteAttr (s : MemState) (r : Nat) (a : ClickAttribution) : MemState :=
  { s with attrHeap := s.attrHeap.set r a }

/-! ## SQLite storage (`src/lib/storage/sqlite.ts`)

The `code_mappings` table.  The attribution payload is stored as a
serialized blob (`JSON.stringify` / `JSON.parse` appear as the abstract
`ser` / `deser` functions), so rows hold no object references at all. -/

/-- A row of `code_mappings` (schema from `SQLiteStorage.init`):
`resolved` is an INTEGER defaulting to 0, `resolved_at` a nullable TEXT. -/
structure SqlCodeRow where
  code : String
  bot_username : String
  attribution : String
  created_at : Nat
  resolved : Nat
  resolved_at : Option Nat := none
deriving DecidableEq

/-- `CodeMapping` as the plain value the sqlite backend exchanges with its
callers (no heap references: nested data is rebuilt from the row). -/
structure CodeMappingV where
  code : String
  attribution : ClickAttribution
  botUsername : String
  createdAt : Nat
  resolved : Bool
  resolvedAt : Option Nat := none
deriving DecidableEq

/-- sqlite.ts `storeCode`: `INSERT INTO code_mappings (code, bot_username,
attribution, created_at, resolved) VALUES (?, ?, ?, ?, 0)` — `resolved` is
hard-coded to 0 and `resolved_at` is not in the column list (NULL),
whatever the input mapping carries; a duplicate primary key raises. -/
def sqliteStoreCode (ser : ClickAttribution → String)
    (tbl : List SqlCodeRow) (m : CodeMappingV) :
    Except String (List SqlCodeRow) :=
  if tbl.any (·.code == m.code) then
    Except.error "UNIQUE constraint failed: code_mappings.code"
  else
    let row : SqlCodeRow :=
      { code := m.code
        bot_username := m.botUsername
        attribution := ser m.attribution
        created_at := m.createdAt
        resolved := 0
        resolved_at := none }
    Except.ok (tbl ++ [row])

/-- sqlite.ts `getCode`: SELECT by primary key and rebuild the mapping,
parsing the attribution blob anew on every read. -/
def sqliteGetCode (deser : String → ClickAttribution)
    (tbl : List SqlCodeRow) (c : String) : Option CodeMappingV :=
  (tbl.find? (·.code == c)).map fun r =>
    { code := r.code
      botUsername := r.bot_username
      attribution := deser r.attribution
      createdAt := r.created_at
      resolved := r.resolved == 1
      resolvedAt := r.resolved_at }

/-- sqlite.ts `markResolved`: `UPDATE code_mappings SET resolved = 1,
resolved_at = ? WHERE code = ?` with the current clock reading. -/
def sqliteMarkResolved (tbl : List SqlCodeRow) (c : String) (now : Nat) :
    List SqlCodeRow :=
  tbl.map fun r =>
    if r.code == c then { r with resolved := 1, resolved_at := some now }
    else r

/-- sqlite.ts `deleteCode`. -/
def sqliteDeleteCode (tbl : List SqlCodeRow) (c : String) : List SqlCodeRow :=
  tbl.filter (fun r => ¬ (r.code == c))

/-- A concrete attribution record used by witnesses and counterexamples. -/
def attrPromo : ClickAttribution where
  slug := "promo"
  timestamp := 1
  utm := {}
  extraParams := []
  ipHash := "ip"
  userAgent := "ua"
  device := { type := "mobile", os := "iOS", browser := "Safari", hasTelegramApp := true }
  requestId := "r1"

/-- A mapping handed to `storeCode` already flagged resolved. -/
def mappingArrivingResolved : CodeMappingV where
  code := "C"
  attribution := attrPromo
  botUsername := "SalesBot"
  createdAt := 1
  resolved := true
  resolvedAt := some 5

/-! ## Concrete instances for claims C2 and C3 -/

/-- The attribution object after a caller writes `slug = "evil"` through a
reference obtained from a read. -/
def attrEvil : ClickAttribution := { attrPromo with slug := "evil" }

/-- The mapping stored for code `"C"`, its attribution at heap address 0. -/
def storedMappingC : MemMapping where
  code := "C"
  attrRef := 0
  botUsername := "SalesBot"
  createdAt := 1
  resolved := false

/-- A memory-backend state holding one mapping. -/
def memStateC : MemState where
  attrHeap := [attrPromo]
  logHeap := []
  codeMappings := [("C", storedMappingC)]
  clickLogs := []

/-! ## Resolution handler (`src/routes/resolve.ts`, `GET /r/:code`) -/

/-- The response of `GET /r/:code` (status / body shape). -/
inductive ResolveResp where
  /-- 400 `Invalid code format` -/
  | badFormat
  /-- 400 `Invalid code` (signature failed) -/
  | badSig
  /-- 404 `Code not found` -/
  | notFound
  /-- 200 with `data := mapping.attribution` (dereferenced at send time) -/
  | ok (attribution : Option ClickAttribution)
deriving DecidableEq

/-- Handler-visible state: the memory storage backend plus the
module-level code cache.  The `lru-cache` instance (1000 entries, 5-minute
TTL) is modelled as a plain map: no scenario in the claims reaches
capacity or expiry. -/
structure RState where
  store : MemState
  cache : List (String × MemMapping) := []
deriving DecidableEq

/-- One `GET /r/:code` request of resolve.ts against the memory backend
(whose operations cannot throw, so the source's catch branches are dead
code here).  `now` abstracts the request's `new Date()` readings and
`oneTime` is `config.oneTimeCodes`.  Returns the response, the next
state, and the number of `storage.getCode` lookups performed. -/
def resolveCall (hmacBytes : String → String → List Nat) (secret : String)
    (oneTime : Bool) (now : Nat) (rs : RState) (code : String) :
    ResolveResp × RState × Nat :=
  if ¬ isValidCodeFormat code then (.badFormat, rs, 0)
  else if ¬ validateCode hmacBytes secret code then (.badSig, rs, 0)
  else
    let fetched : Option MemMapping × Nat :=
      match mapGet rs.cache code with
      | some m => (some m, 0)
      | none => (memGetCode rs.store code, 1)
    match fetched.1 with
    | none => (.notFound, rs, fetched.2)
    | some m =>
        let cache1 := mapSet rs.cache code m
        let step2 : MemMapping × MemState × List (String × MemMapping) :=
          if !m.resolved then
            let m2 : MemMapping := { m with resolved := true, resolvedAt := some now }
            (m2, memMarkResolved rs.store code now, mapSet cache1 code m2)
          else
            (m, rs.store, cache1)
        let m2 := step2.1
        let step3 : MemState × List (String × MemMapping) :=
          if oneTime && !m2.resolved then
            (memDeleteCode step2.2.1 code, mapDelete step2.2.2 code)
          else
            (step2.2.1, step2.2.2)
        (.ok (derefAttr step3.1 m2.attrRef),
          { store := step3.1, cache := step3.2 }, fetched.2)

/-- The concrete HMAC standing in for `crypto.createHmac` in closed
evaluations: a constant 32-byte digest. -/
def hbConst : String → String → List Nat := fun _ _ => List.replicate 32 0

/-- The code `generateCode` produces under `hbConst` from 16 zero bytes:
22 + 8 base64url characters, all `A`. -/
def codeA : String := "AAAAAAAAAAAAAAAAAAAAAAAAAAAAAA"

/-- A well-formed 30-character code that was never issued (its signature
does not verify under `hbConst`). -/
def codeB : String := "BBBBBBBBBBBBBBBBBBBBBBBBBBBBBB"

/-- The mapping stored for `codeA`. -/
def storedMappingA : MemMapping where
  code := codeA
  attrRef := 0
  botUsername := "SalesBot"
  createdAt := 1
  resolved := false

/-- Handler state holding the single unresolved mapping for `codeA`. -/
def rsA : RState where
  store :=
    { attrHeap := [attrPromo]
      logHeap := []
      codeMappings := [(codeA, storedMappingA)]
      clickLogs := [] }
  cache := []

/-- Handler state with an empty store and cache. -/
def rsEmpty : RState where
  store := {}
  cache := []

/-! ## Redirect orchestrator (`src/routes/tg.ts`, `GET /tg/:slug`) -/

/-- `TelegramDestinationType` from types.ts. -/
inductive TgDestType where
  | bot
  | public
  | invite
deriving DecidableEq

/-- `RedirectMode` from types.ts. -/
inductive RedirectMode where
  | m302
  | shim
deriving DecidableEq

/-- `SlugConfig` from types.ts. -/
structure SlugConfig where
  slug : String
  type : TgDestType
  mode : RedirectMode
  destination : String
  description : Option String := none
  active : Bool := true
  defaultStartParam : Option String := none
deriving DecidableEq

/-- The character class `encodeURIComponent` leaves unescaped
(alphanumerics and `-_.!~*'()`; the apostrophe is written by code point). -/
def isUriUnreserved (c : Char) : Bool :=
  c.isAlphanum || c == '-' || c == '_' || c == '.' || c == '!' || c == '~' ||
    c == '*' || c == Char.ofNat 39 || c == '(' || c == ')'

/-- Upper-case hexadecimal digit. -/
def hexDigit (n : Nat) : Char := "0123456789ABCDEF".data.getD (n % 16) '0'

/-- UTF-8 bytes of a code point. -/
def utf8Bytes (n : Nat) : List Nat :=
  if n < 128 then [n]
  else if n < 2048 then [192 + n / 64, 128 + n % 64]
  else if n < 65536 then [224 + n / 4096, 128 + n / 64 % 64, 128 + n % 64]
  else [240 + n / 262144, 128 + n / 4096 % 64, 128 + n / 64 % 64, 128 + n % 64]

/-- Percent-encoding of one character (each UTF-8 byte as `%XY`). -/
def pctEncodeChar (c : Char) : List Char :=
  (utf8Bytes c.toNat).foldr
    (fun b acc => '%' :: hexDigit (b / 16) :: hexDigit b :: acc) []

/-- The JS builtin `encodeURIComponent`. -/
def encodeURIComponent (s : String) : String :=
  String.mk ((s.data.map
    (fun c => if isUriUnreserved c then [c] else pctEncodeChar c)).flatten)

/-- `buildFallbackUrl` from shim.ts: the `https://t.me/` URL; an empty
start parameter is falsy in JS and therefore dropped. -/
def buildFallbackUrl (type : TgDestType) (destination : String)
    (startParam : Option String) : String :=
  match type, startParam with
  | .bot, some p =>
      if p.isEmpty then "https://t.me/" ++ encodeURIComponent destination
      else "https://t.me/" ++ encodeURIComponent destination ++ "?start=" ++
        encodeURIComponent p
  | .bot, none => "https://t.me/" ++ encodeURIComponent destination
  | .public, _ => "https://t.me/" ++ encodeURIComponent destination
  | .invite, _ => "https://t.me/+" ++ encodeURIComponent destination

/-- `getDirectRedirectUrl` from shim.ts. -/
def getDirectRedirectUrl (type : TgDestType) (destination : String)
    (startParam : Option String) : String :=
  buildFallbackUrl type destination startParam

/-- The key-value pairs a JS spread `{ ...utmParams }` contributes
(extractUtmParams sets only the keys present in the query). -/
def utmPairs (u : UTMParams) : List (String × String) :=
  (match u.utm_source with | some v => [("utm_source", v)] | none => []) ++
  (match u.utm_medium with | some v => [("utm_medium", v)] | none => []) ++
  (match u.utm_campaign with | some v => [("utm_campaign", v)] | none => []) ++
  (match u.utm_term with | some v => [("utm_term", v)] | none => []) ++
  (match u.utm_content with | some v => [("utm_content", v)] | none => [])

/-- The per-click context the orchestrator receives from its external
collaborators (request metadata, UTM/extra extraction, device
classification, request id, and the `new Date()` reading). -/
structure ClickCtx where
  timestamp : Nat
  utm : UTMParams
  extraParams : List (String × String)
  ipHash : String
  userAgent : String
  device : DeviceInfo
  requestId : String
deriving DecidableEq

/-- What `GET /tg/:slug` produces for the response layer. -/
structure TgResult where
  redirectTarget : String
  code : Option String := none
  mode : RedirectMode
deriving DecidableEq

/-- The `GET /tg/:slug` handler body of tg.ts after slug lookup, for an
active slug config, against the memory backend (`storeCode` / `logClick`
cannot throw there, so the non-fatal catch arms are dead).  The random
bytes for `generateCode` are an explicit argument; a `generateCode` throw
propagates as `Except.error` (fatal, handled by the framework). -/
def tgHandle (hmacBytes : String → String → List Nat) (secret : String)
    (rnd : List Nat) (cfg : SlugConfig) (ctx : ClickCtx) (s : MemState) :
    Except String (TgResult × MemState) :=
  if cfg.type = TgDestType.bot then
    match generateCode hmacBytes secret rnd with
    | Except.error e => Except.error e
    | Except.ok code =>
        let attr : ClickAttribution :=
          { slug := cfg.slug
            timestamp := ctx.timestamp
            utm := ctx.utm
            extraParams := ctx.extraParams
            ipHash := ctx.ipHash
            userAgent := ctx.userAgent
            device := ctx.device
            requestId := ctx.requestId }
        let s1 : MemState := { s with attrHeap := s.attrHeap ++ [attr] }
        let mapping : MemMapping :=
          { code := code
            attrRef := s.attrHeap.length
            botUsername := cfg.destination
            createdAt := ctx.timestamp
            resolved := false
            resolvedAt := none }
        let s2 := memStoreCode s1 mapping
        let redirectTarget := getDirectRedirectUrl TgDestType.bot
          cfg.destination (some code)
        let log : ClickLog :=
          { requestId := ctx.requestId
            slug := cfg.slug
            timestamp := ctx.timestamp
            ipHash := ctx.ipHash
            userAgent := ctx.userAgent
            redirectTarget := redirectTarget
            code := some code
            queryParams := utmPairs ctx.utm ++ ctx.extraParams }
        let res : TgResult :=
          { redirectTarget := redirectTarget
            code := some code
            mode := cfg.mode }
        Except.ok (res, memLogClick s2 log)
  else
    let redirectTarget := getDirectRedirectUrl cfg.type cfg.destination none
    let log : ClickLog :=
      { requestId := ctx.requestId
        slug := cfg.slug
        timestamp := ctx.timestamp
        ipHash := ctx.ipHash
        userAgent := ctx.userAgent
        redirectTarget := redirectTarget
        code := none
        queryParams := utmPairs ctx.utm ++ ctx.extraParams }
    let res : TgResult :=
      { redirectTarget := redirectTarget
        code := none
        mode := cfg.mode }
    Except.ok (res, memLogClick s log)

/-- A public-channel slug config. -/
def cfgCommunity : SlugConfig where
  slug := "community"
  type := TgDestType.public
  mode := RedirectMode.m302
  destination := "TalCareerBot"

/-- A bot slug config. -/
def cfgSales : SlugConfig where
  slug := "sales-bot"
  type := TgDestType.bot
  mode := RedirectMode.m302
  destination := "SalesBot"

/-- A concrete click context. -/
def ctx0 : ClickCtx where
  timestamp := 1
  utm := { utm_source := some "linkedin" }
  extraParams := []
  ipHash := "ip"
  userAgent := "ua"
  device := { type := "mobile", os := "iOS", browser := "Safari", hasTelegramApp := true }
  requestId := "r1"

/-- The empty memory-storage state. -/
def memEmpty : MemState := {}

/-! ## The store transition system (claim C5) -/

/-- The states the program can drive the memory store's `codeMappings`
into, paired with the current clock reading: the orchestrator stores
fresh mappings with `createdAt` set to its clock reading and
`resolved: false` (tg.ts lines 269-275), the handler and store layer mark
resolved with the current reading (`markResolved`), codes can be deleted,
and the clock only moves forward. -/
inductive ReachableStore : Nat → List (String × MemMapping) → Prop where
  | init (t0 : Nat) : ReachableStore t0 []
  | tick {t : Nat} {M : List (String × MemMapping)} (t' : Nat) :
      ReachableStore t M → t ≤ t' → ReachableStore t' M
  | store {t : Nat} {M : List (String × MemMapping)}
      (code : String) (attrRef : Nat) (botUsername : String) :
      ReachableStore t M →
      ReachableStore t (mapSet M code
        { code := code, attrRef := attrRef, botUsername := botUsername,
          createdAt := t, resolved := false, resolvedAt := none })
  | mark {t : Nat} {M : List (String × MemMapping)} (code : String) :
      ReachableStore t M → ReachableStore t (mapMarkResolved M code t)
  | del {t : Nat} {M : List (String × MemMapping)} (code : String) :
      ReachableStore t M → ReachableStore t (mapDelete M code)

/-- The C5 invariant, strengthened with the clock bound that makes it
inductive: every mapping was created no later than now, and a resolved
mapping has `resolvedAt` set and no earlier than `createdAt`. -/
def StoreInv (t : Nat) (M : List (String × MemMapping)) : Prop :=
  ∀ p ∈ M, p.2.createdAt ≤ t ∧
    (p.2.resolved = true → ∃ r, p.2.resolvedAt = some r ∧ p.2.createdAt ≤ r)

/-- The mapping the orchestrator stores at clock 1 in the C5 witness. -/
def rowC5 : MemMapping where
  code := "C"
  attrRef := 0
  botUsername := "SalesBot"
  createdAt := 1
  resolved := false
  resolvedAt := none

/-- The store after storing `rowC5` at clock 1 and marking it resolved at
clock 2. -/
def storeC5 : List (String × MemMapping) :=
  mapMarkResolved (mapSet [] "C" rowC5) "C" 2

/-! ## Theorems -/
theorem base64urlEncode_length : ∀ l : List Nat,
    (base64urlEncode l).length = b64EncLen l.length
  | [] => rfl
  | [_] => rfl
  | [_, _] => rfl
  | _ :: _ :: _ :: rest => by
      simp [base64urlEncode, b64EncLen, base64urlEncode_length rest,
        List.length_cons]
      omega

theorem b64Char_mem (n : Nat) : b64Char n ∈ b64Alphabet := by
  have h : n % 64 < b64Alphabet.length := Nat.mod_lt _ (by decide)
  rw [b64Char, List.getD_eq_getElem _ _ h]
  exact List.getElem_mem h

theorem mem_base64urlEncode : ∀ (l : List Nat) (c : Char),
    c ∈ base64urlEncode l → c ∈ b64Alphabet
  | [], _, h => by simp [base64urlEncode] at h
  | [b1], c, h => by
      rcases (by simpa [base64urlEncode] using h) with rfl | rfl <;>
        exact b64Char_mem _
  | [b1, b2], c, h => by
      rcases (by simpa [base64urlEncode] using h) with rfl | rfl | rfl <;>
        exact b64Char_mem _
  | b1 :: b2 :: b3 :: rest, c, h => by
      rcases (by simpa [base64urlEncode] using h) with rfl | rfl | rfl | rfl | hm
      · exact b64Char_mem _
      · exact b64Char_mem _
      · exact b64Char_mem _
      · exact b64Char_mem _
      · exact mem_base64urlEncode rest c hm

theorem b64Alphabet_isCodeChar : ∀ c ∈ b64Alphabet, isCodeChar c = true := by
  decide

theorem foldl_xorStep_self : ∀ l : List Char, (l.zip l).foldl xorStep 0 = 0 := by
  intro l
  induction l with
  | nil => rfl
  | cons c rest ih =>
      have h : xorStep 0 (c, c) = 0 := by
        simp [xorStep, Nat.xor_self]
      simpa [List.zip, h] using ih

/-- Verification succeeds on a genuinely created signature. -/
theorem verifySignature_createSignature
    (hmacBytes : String → String → List Nat) (secret payload : String) :
    verifySignature hmacBytes secret payload
      (createSignature hmacBytes secret payload) = true := by
  simp [verifySignature, foldl_xorStep_self]

theorem mk_data (s : String) : String.mk s.data = s := by cases s; rfl

theorem data_mk (l : List Char) : (String.mk l).data = l := rfl

theorem length_encode_random (rnd : List Nat) (h : rnd.length = RANDOM_BYTES) :
    (base64urlEncode rnd).length = 22 := by
  rw [base64urlEncode_length, h]; decide

theorem length_createSignature (hmacBytes : String → String → List Nat)
    (secret p : String) (h : (hmacBytes secret p).length = 32) :
    (createSignature hmacBytes secret p).length = 8 := by
  show ((base64urlEncode (hmacBytes secret p)).take SIGNATURE_LENGTH).length = 8
  rw [List.length_take, base64urlEncode_length, h]; decide

theorem all_isCodeChar_encode (l : List Nat) :
    (base64urlEncode l).all isCodeChar = true := by
  rw [List.all_eq_true]
  intro c hc
  exact b64Alphabet_isCodeChar c (mem_base64urlEncode l c hc)

theorem all_isCodeChar_createSignature (hmacBytes : String → String → List Nat)
    (secret p : String) :
    (createSignature hmacBytes secret p).data.all isCodeChar = true := by
  show ((base64urlEncode (hmacBytes secret p)).take SIGNATURE_LENGTH).all
        isCodeChar = true
  rw [List.all_eq_true]
  intro c hc
  exact b64Alphabet_isCodeChar c
    (mem_base64urlEncode _ c (List.take_subset _ _ hc))

/-- Under the fixed configuration (16 random bytes, 32-byte HMAC digest),
`generateCode` takes the non-fatal branch and returns the concatenation. -/
theorem generateCode_eq_ok (hmacBytes : String → String → List Nat)
    (secret : String) (rnd : List Nat) (h1 : rnd.length = RANDOM_BYTES)
    (h2 : ∀ p, (hmacBytes secret p).length = 32) :
    generateCode hmacBytes secret rnd =
      Except.ok (String.mk (base64urlEncode rnd) ++
        createSignature hmacBytes secret (String.mk (base64urlEncode rnd))) := by
  have hlen : (String.mk (base64urlEncode rnd) ++
      createSignature hmacBytes secret (String.mk (base64urlEncode rnd))).length
        = 30 := by
    rw [String.length_append]
    have hr : (String.mk (base64urlEncode rnd)).length = 22 :=
      length_encode_random rnd h1
    rw [hr, length_createSignature hmacBytes secret _ (h2 _)]
  unfold generateCode
  rw [if_neg]
  rw [hlen]
  decide

/-- C8: every code returned by `generate()` is at most 64 characters long and
composed only of `[A-Za-z0-9_-]`; with the fixed configuration (16 random
bytes, 8-character signature over a 32-byte HMAC digest) the length is always
30, so the fatal length-exceeded branch in `generateCode` is unreachable
(the call always returns `ok`). -/
theorem generateCode_length_charset (hmacBytes : String → String → List Nat)
    (secret : String) (rnd : List Nat) (h1 : rnd.length = RANDOM_BYTES)
    (h2 : ∀ p, (hmacBytes secret p).length = 32) :
    ∃ code, generateCode hmacBytes secret rnd = Except.ok code ∧
      code.length = 30 ∧ code.length ≤ MAX_CODE_LENGTH ∧
      code.data.all isCodeChar = true := by
  have hr : (String.mk (base64urlEncode rnd)).length = 22 :=
    length_encode_random rnd h1
  have hs : (createSignature hmacBytes secret
      (String.mk (base64urlEncode rnd))).length = 8 :=
    length_createSignature hmacBytes secret _ (h2 _)
  refine ⟨_, generateCode_eq_ok hmacBytes secret rnd h1 h2, ?_, ?_, ?_⟩
  · rw [String.length_append, hr, hs]
  · rw [String.length_append, hr, hs]
    decide
  · rw [String.data_append, data_mk, List.all_append,
      all_isCodeChar_encode rnd,
      all_isCodeChar_createSignature hmacBytes secret _]
    rfl

/-- Witness for C8 at a concrete instantiation. -/
theorem generateCode_length_charset_witness :
    (List.replicate 16 0).length = RANDOM_BYTES ∧
    (∀ p : String,
      ((fun (_ _ : String) => List.replicate 32 0) "s" p).length = 32) ∧
    ∃ code, generateCode (fun _ _ => List.replicate 32 0) "s"
        (List.replicate 16 0) = Except.ok code ∧
      code.length = 30 ∧ code.length ≤ MAX_CODE_LENGTH ∧
      code.data.all isCodeChar = true :=
  ⟨by decide, fun _ => by simp,
    generateCode_length_charset (fun _ _ => List.replicate 32 0) "s"
      (List.replicate 16 0) (by decide) (fun _ => by simp)⟩

/-- A code that splits as a 22-character payload and an 8-character
signature passing `verifySignature` passes `validateCode`. -/
theorem validateCode_of_parts (hmacBytes : String → String → List Nat)
    (secret : String) (payload sig : String)
    (hpl : payload.data.length = 22) (hsl : sig.data.length = 8)
    (hpc : payload.data.all isCodeChar = true)
    (hsc : sig.data.all isCodeChar = true)
    (hsig : verifySignature hmacBytes secret payload sig = true) :
    validateCode hmacBytes secret (payload ++ sig) = true := by
  have hdata : (payload ++ sig).data = payload.data ++ sig.data :=
    String.data_append payload sig
  have hlen : (payload ++ sig).length = 30 := by
    show (payload ++ sig).data.length = 30
    rw [hdata, List.length_append, hpl, hsl]
  have htake : (payload.data ++ sig.data).take 22 = payload.data :=
    List.take_left' hpl
  have hdrop : (payload.data ++ sig.data).drop 22 = sig.data :=
    List.drop_left' hpl
  have hempty : (payload ++ sig).data.isEmpty = false := by
    rw [hdata]
    cases h : (payload.data ++ sig.data).isEmpty
    · rfl
    · exfalso
      have := List.isEmpty_iff.mp h
      have := congrArg List.length this
      rw [List.length_append, hpl, hsl] at this
      exact absurd this (by decide)
  unfold validateCode
  rw [hempty, hlen, hdata]
  norm_num [SIGNATURE_LENGTH, MAX_CODE_LENGTH]
  refine ⟨⟨List.all_eq_true.mp hpc, List.all_eq_true.mp hsc⟩, ?_⟩
  have h22 : payload.length + sig.length - 8 = 22 := by
    show payload.data.length + sig.data.length - 8 = 22
    rw [hpl, hsl]
  rw [h22, htake, hdrop, mk_data payload, mk_data sig]
  exact hsig

/-- C9: round-trip — `validateCode` accepts every code produced by
`generateCode` under the same signing secret and HMAC. -/
theorem validateCode_generateCode (hmacBytes : String → String → List Nat)
    (secret : String) (rnd : List Nat) (code : String)
    (h1 : rnd.length = RANDOM_BYTES)
    (h2 : ∀ p, (hmacBytes secret p).length = 32)
    (hok : generateCode hmacBytes secret rnd = Except.ok code) :
    validateCode hmacBytes secret code = true := by
  rw [generateCode_eq_ok hmacBytes secret rnd h1 h2] at hok
  injection hok with hcode
  subst hcode
  exact validateCode_of_parts hmacBytes secret _ _
    (length_encode_random rnd h1)
    (length_createSignature hmacBytes secret _ (h2 _))
    (all_isCodeChar_encode rnd)
    (all_isCodeChar_createSignature hmacBytes secret _)
    (verifySignature_createSignature hmacBytes secret _)

/-- Witness for C9 at a concrete instantiation. -/
theorem validateCode_generateCode_witness :
    validateCode (fun _ _ => List.replicate 32 0) "s"
      "AAAAAAAAAAAAAAAAAAAAAAAAAAAAAA" = true :=
  validateCode_generateCode (fun _ _ => List.replicate 32 0) "s"
    (List.replicate 16 0) "AAAAAAAAAAAAAAAAAAAAAAAAAAAAAA"
    (by decide) (fun _ => by simp) (by rfl)

theorem find?_replace_hit {α : Type} (m : List (String × α)) (k : String)
    (v : α) (hany : m.any (·.1 == k) = true) :
    (m.map fun p => if p.1 == k then (k, v) else p).find? (·.1 == k) =
      some (k, v) := by
  induction m with
  | nil => simp at hany
  | cons p rest ih =>
      by_cases hp : (p.1 == k) = true
      · simp only [List.map_cons, if_pos hp]
        exact List.find?_cons_of_pos _ (by simp)
      · simp only [List.map_cons, if_neg hp]
        rw [List.find?_cons_of_neg _ (by simpa using hp)]
        have hrest : rest.any (·.1 == k) = true := by
          rcases List.any_eq_true.mp hany with ⟨x, hx, hxk⟩
          rcases List.mem_cons.mp hx with hx | hx
          · exact absurd (hx ▸ hxk) (by simpa using hp)
          · exact List.any_eq_true.mpr ⟨x, hx, hxk⟩
        exact ih hrest

theorem find?_replace_miss {α : Type} (m : List (String × α)) (k k' : String)
    (v : α) (hne : k' ≠ k) :
    (m.map fun p => if p.1 == k then (k, v) else p).find? (·.1 == k') =
      m.find? (·.1 == k') := by
  induction m with
  | nil => rfl
  | cons p rest ih =>
      by_cases hp : (p.1 == k) = true
      · have hpk : p.1 = k := by simpa using hp
        simp only [List.map_cons, if_pos hp]
        rw [List.find?_cons_of_neg _ (by simpa using Ne.symm hne),
          List.find?_cons_of_neg _ (by rw [hpk]; simpa using Ne.symm hne)]
        exact ih
      · by_cases hpk' : (p.1 == k') = true
        · simp only [List.map_cons, if_neg hp]
          simp only [List.find?_cons, hpk']
        · simp only [List.map_cons, if_neg hp]
          simp only [List.find?_cons, hpk']
          exact ih

theorem find?_none_of_not_any {α : Type} (m : List (String × α)) (k : String)
    (h : m.any (·.1 == k) = false) : m.find? (·.1 == k) = none := by
  rw [List.find?_eq_none]
  intro x hx hxk
  have hany : m.any (·.1 == k) = true := List.any_eq_true.mpr ⟨x, hx, hxk⟩
  rw [h] at hany
  exact Bool.false_ne_true hany

theorem mapGet_mapSet_self {α : Type} (m : List (String × α)) (k : String)
    (v : α) : mapGet (mapSet m k v) k = some v := by
  unfold mapSet mapGet
  by_cases h : m.any (·.1 == k) = true
  · rw [if_pos h, find?_replace_hit m k v h]
    rfl
  · rw [if_neg h, List.find?_append,
      find?_none_of_not_any m k (Bool.not_eq_true _ ▸ h)]
    simp [List.find?]

theorem mapGet_mapSet_ne {α : Type} (m : List (String × α)) (k k' : String)
    (v : α) (hne : k' ≠ k) : mapGet (mapSet m k v) k' = mapGet m k' := by
  unfold mapSet mapGet
  by_cases h : m.any (·.1 == k) = true
  · rw [if_pos h, find?_replace_miss m k k' v hne]
  · rw [if_neg h, List.find?_append]
    have hkk : (k == k') = false := by
      simpa using Ne.symm hne
    have h1 : List.find? (·.1 == k') [(k, v)] = none := by
      simp [List.find?, hkk]
    rw [h1]
    cases m.find? (·.1 == k') <;> rfl

theorem find?_append_of_none {α : Type} (l1 l2 : List α) (p : α → Bool)
    (h : l1.find? p = none) : (l1 ++ l2).find? p = l2.find? p := by
  rw [List.find?_append, h]
  rfl

/-- C10: `SQLiteStorage.storeCode` persists every mapping unresolved —
`resolved = 0`, `resolved_at` NULL — regardless of the `resolved` /
`resolvedAt` fields of its input, so `getCode` immediately after
`storeCode` returns an unresolved mapping even if the caller passed
`resolved = true`. -/
theorem sqliteStoreCode_forces_unresolved (ser : ClickAttribution → String)
    (deser : String → ClickAttribution) (tbl : List SqlCodeRow)
    (m : CodeMappingV) (hround : deser (ser m.attribution) = m.attribution)
    (hfresh : tbl.any (·.code == m.code) = false) :
    ∃ tbl', sqliteStoreCode ser tbl m = Except.ok tbl' ∧
      sqliteGetCode deser tbl' m.code =
        some { m with resolved := false, resolvedAt := none } := by
  refine ⟨_, by rw [sqliteStoreCode, if_neg (by rw [hfresh]; decide)], ?_⟩
  unfold sqliteGetCode
  have h1 : tbl.find? (·.code == m.code) = none := by
    rw [List.find?_eq_none]
    intro x hx hxk
    have hany : tbl.any (·.code == m.code) = true :=
      List.any_eq_true.mpr ⟨x, hx, hxk⟩
    rw [hfresh] at hany
    exact Bool.false_ne_true hany
  rw [find?_append_of_none _ _ _ h1]
  rw [List.find?_cons_of_pos _ (by simp)]
  simp [hround]

/-- Witness for C10: storing a mapping that arrives already flagged
`resolved = true` with a set `resolvedAt`, then reading it back. -/
theorem sqliteStoreCode_forces_unresolved_witness :
    ∃ tbl', sqliteStoreCode (fun _ => "blob") [] mappingArrivingResolved =
        Except.ok tbl' ∧
      sqliteGetCode (fun _ => attrPromo) tbl' "C" =
        some { mappingArrivingResolved with resolved := false, resolvedAt := none } :=
  sqliteStoreCode_forces_unresolved (fun _ => "blob") (fun _ => attrPromo)
    [] mappingArrivingResolved rfl rfl

/-- C2 fails on the memory backend: `MemoryStorage.getCode` returns
`{ ...mapping }`, a shallow copy whose nested attribution object is the
stored one; writing `slug` through the returned reference makes a second
`getCode` observe `"evil"` instead of the originally stored `"promo"`. -/
theorem memGetCode_not_deep_copy_counterexample :
    memGetCode memStateC "C" = some storedMappingC ∧
    derefAttr memStateC storedMappingC.attrRef = some attrPromo ∧
    memGetCode (heapWriteAttr memStateC storedMappingC.attrRef attrEvil) "C" =
      some storedMappingC ∧
    derefAttr (heapWriteAttr memStateC storedMappingC.attrRef attrEvil)
      storedMappingC.attrRef = some attrEvil ∧
    attrEvil ≠ attrPromo := by
  exact ⟨by decide, by decide, by decide, by decide, by decide⟩

/-- C2 (amended): the SQLite backend rebuilds the attribution from the
serialized row on every read (a deep copy), but `MemoryStorage.getCode`
returns only a shallow copy — the nested attribution reference is shared
with the store, so a nested mutation through the returned object is seen
by subsequent reads — and `MemoryStorage.getClickLogs` returns references
to the stored log entries themselves. -/
theorem storage_read_copy_semantics :
    (∀ (s : MemState) (c : String) (m : MemMapping) (a : ClickAttribution),
      memGetCode s c = some m →
      memGetCode (heapWriteAttr s m.attrRef a) c = some m ∧
      (m.attrRef < s.attrHeap.length →
        derefAttr (heapWriteAttr s m.attrRef a) m.attrRef = some a)) ∧
    (∀ (s : MemState) (slug : String) (limit : Nat) (r : Nat),
      r ∈ memGetClickLogs s slug limit → r ∈ s.clickLogs) ∧
    (∀ (deser : String → ClickAttribution) (tbl : List SqlCodeRow)
      (c : String) (m : CodeMappingV),
      sqliteGetCode deser tbl c = some m →
      ∃ r ∈ tbl, (r.code == c) = true ∧ m.attribution = deser r.attribution) := by
  refine ⟨?_, ?_, ?_⟩
  · intro s c m a hget
    refine ⟨hget, ?_⟩
    intro hlt
    unfold derefAttr heapWriteAttr
    simp [List.get?_eq_getElem?, List.getElem?_set, hlt]
  · intro s slug limit r hr
    unfold memGetClickLogs at hr
    rw [List.mem_reverse] at hr
    by_cases h0 : limit = 0
    · rw [if_pos h0] at hr
      exact (List.mem_filter.mp hr).1
    · rw [if_neg h0] at hr
      exact (List.mem_filter.mp (List.mem_of_mem_drop hr)).1
  · intro deser tbl c m hget
    unfold sqliteGetCode at hget
    cases hf : tbl.find? (·.code == c) with
    | none => rw [hf] at hget; exact absurd hget (by simp)
    | some r =>
        rw [hf] at hget
        refine ⟨r, List.mem_of_find?_eq_some hf, ?_, ?_⟩
        · have hp := List.find?_some hf
          simpa using hp
        · have := Option.some.inj hget
          rw [← this]

/-- Witness for the amended C2 at the concrete one-mapping state. -/
theorem storage_read_copy_semantics_witness :
    memGetCode (heapWriteAttr memStateC 0 attrEvil) "C" = some storedMappingC ∧
    derefAttr (heapWriteAttr memStateC 0 attrEvil) 0 = some attrEvil := by
  have h := storage_read_copy_semantics.1 memStateC "C" storedMappingC attrEvil
    (by decide)
  exact ⟨h.1, h.2 (by decide)⟩

/-- C3 fails as stated: `markResolved` stamps `resolvedAt` with its own
clock reading, so calling it twice (clock readings 1, then 2) leaves
`resolvedAt = 2` while a single call leaves `resolvedAt = 1` — the second
call does not set the same value. -/
theorem memMarkResolved_twice_counterexample :
    memGetCode (memMarkResolved (memMarkResolved memStateC "C" 1) "C" 2) "C" =
      some { storedMappingC with resolved := true, resolvedAt := some 2 } ∧
    memGetCode (memMarkResolved memStateC "C" 1) "C" =
      some { storedMappingC with resolved := true, resolvedAt := some 1 } ∧
    memMarkResolved (memMarkResolved memStateC "C" 1) "C" 2 ≠
      memMarkResolved memStateC "C" 1 := by
  exact ⟨by decide, by decide, by decide⟩

/-- How `mapMarkResolved` is observed through `mapGet`. -/
theorem mapGet_mapMarkResolved (M : List (String × MemMapping))
    (c : String) (t : Nat) (c' : String) :
    mapGet (mapMarkResolved M c t) c' =
      if c' = c then
        (mapGet M c).map (fun m => { m with resolved := true, resolvedAt := some t })
      else mapGet M c' := by
  unfold mapMarkResolved
  cases hg : mapGet M c with
  | none =>
      by_cases hc : c' = c
      · subst hc
        rw [if_pos rfl, hg]
        rfl
      · rw [if_neg hc]
  | some m =>
      by_cases hc : c' = c
      · subst hc
        rw [if_pos rfl, mapGet_mapSet_self]
        rfl
      · rw [if_neg hc]
        exact mapGet_mapSet_ne _ _ _ _ hc

/-- C3 (amended): `markResolved` is idempotent up to the clock reading —
on both backends, a second call overwrites `resolvedAt` with its own
timestamp and changes nothing else, so two calls observing clock readings
`t1` then `t2` leave the store exactly as one call at `t2`; in particular,
two calls with the same clock reading equal one call. -/
theorem markResolved_idempotent_up_to_clock :
    (∀ (s : MemState) (c c' : String) (t1 t2 : Nat),
      memGetCode (memMarkResolved (memMarkResolved s c t1) c t2) c' =
        memGetCode (memMarkResolved s c t2) c') ∧
    (∀ (tbl : List SqlCodeRow) (c : String) (t1 t2 : Nat),
      sqliteMarkResolved (sqliteMarkResolved tbl c t1) c t2 =
        sqliteMarkResolved tbl c t2) := by
  constructor
  · intro s c c' t1 t2
    show mapGet (mapMarkResolved (mapMarkResolved s.codeMappings c t1) c t2) c' =
      mapGet (mapMarkResolved s.codeMappings c t2) c'
    by_cases hc : c' = c
    · subst hc
      rw [mapGet_mapMarkResolved, if_pos rfl, mapGet_mapMarkResolved,
        if_pos rfl, mapGet_mapMarkResolved, if_pos rfl]
      cases mapGet s.codeMappings c' <;> rfl
    · rw [mapGet_mapMarkResolved, if_neg hc, mapGet_mapMarkResolved,
        if_neg hc, mapGet_mapMarkResolved, if_neg hc]
  · intro tbl c t1 t2
    unfold sqliteMarkResolved
    rw [List.map_map]
    apply List.map_congr_left
    intro r _
    by_cases hr : (r.code == c) = true
    · simp [Function.comp, hr]
    · simp [Function.comp, hr]

/-- A code accepted by `validateCode` is also accepted by
`isValidCodeFormat` (the syntactic checks of the former subsume the
latter). -/
theorem isValidCodeFormat_of_validateCode
    (hmacBytes : String → String → List Nat) (secret code : String)
    (h : validateCode hmacBytes secret code = true) :
    isValidCodeFormat code = true := by
  unfold validateCode at h
  split_ifs at h with h1 h2
  unfold isValidCodeFormat
  simp only [Bool.or_eq_true, decide_eq_true_eq, not_or] at h1
  rw [if_neg h1.1.1, if_neg h1.2]
  exact h2

/-- C4 fails on the error class: a well-formed code whose signature does
not verify — in particular any never-issued code, the store being empty —
is answered with the 400 signature error, not 404 NotFoundError, and with
zero store lookups. -/
theorem resolve_unissued_code_counterexample :
    isValidCodeFormat codeB = true ∧
    validateCode hbConst "s" codeB = false ∧
    resolveCall hbConst "s" false 1 rsEmpty codeB =
      (ResolveResp.badSig, rsEmpty, 0) ∧
    (resolveCall hbConst "s" false 1 rsEmpty codeB).1 ≠
      ResolveResp.notFound := by
  exact ⟨by decide, by decide, by decide, by decide⟩

/-- C4 (amended): every syntactically valid code whose signature fails to
verify — which is how a never-issued code presents, barring a truncated
HMAC collision — is rejected by the resolve handler with the signature
error via the `validateCode` short-circuit, before any store lookup and
without touching any state. -/
theorem resolve_invalid_signature_short_circuit
    (hmacBytes : String → String → List Nat) (secret : String)
    (oneTime : Bool) (now : Nat) (rs : RState) (code : String)
    (hfmt : isValidCodeFormat code = true)
    (hsig : validateCode hmacBytes secret code = false) :
    resolveCall hmacBytes secret oneTime now rs code =
      (ResolveResp.badSig, rs, 0) := by
  unfold resolveCall
  rw [hfmt, hsig]
  simp

/-- Witness for the amended C4 at the concrete never-issued `codeB`. -/
theorem resolve_invalid_signature_short_circuit_witness :
    resolveCall hbConst "s" true 7 rsEmpty codeB =
      (ResolveResp.badSig, rsEmpty, 0) :=
  resolve_invalid_signature_short_circuit hbConst "s" true 7 rsEmpty codeB
    (by decide) (by decide)

/-- C1 is a code bug: with `config.oneTimeCodes` enabled, the delete
guard `config.oneTimeCodes && !mapping.resolved` runs after the handler
has already set `mapping.resolved = true`, so a successful resolution
never deletes.  Evaluated at the failing input: the first call resolves
`codeA` and leaves the mapping in both store and cache, and the second
call returns the attribution again instead of NotFoundError. -/
theorem oneTime_code_not_deleted_after_resolution :
    (resolveCall hbConst "s" true 2 rsA codeA).1 =
      ResolveResp.ok (some attrPromo) ∧
    memGetCode (resolveCall hbConst "s" true 2 rsA codeA).2.1.store codeA =
      some { storedMappingA with resolved := true, resolvedAt := some 2 } ∧
    mapGet (resolveCall hbConst "s" true 2 rsA codeA).2.1.cache codeA =
      some { storedMappingA with resolved := true, resolvedAt := some 2 } ∧
    (resolveCall hbConst "s" true 3
        (resolveCall hbConst "s" true 2 rsA codeA).2.1 codeA).1 =
      ResolveResp.ok (some attrPromo) ∧
    (resolveCall hbConst "s" true 3
        (resolveCall hbConst "s" true 2 rsA codeA).2.1 codeA).1 ≠
      ResolveResp.notFound := by
  exact ⟨by decide, by decide, by decide, by decide, by decide⟩

/-- Shape of a resolve call that misses the cache, finds an unresolved
mapping in the store, and (one-time policy off) marks it resolved. -/
theorem resolve_first_call_shape (hmacBytes : String → String → List Nat)
    (secret code : String) (rs : RState) (m : MemMapping) (t1 : Nat)
    (hv : validateCode hmacBytes secret code = true)
    (hcache : mapGet rs.cache code = none)
    (hstore : memGetCode rs.store code = some m)
    (hunres : m.resolved = false) :
    resolveCall hmacBytes secret false t1 rs code =
      (ResolveResp.ok (derefAttr (memMarkResolved rs.store code t1) m.attrRef),
        { store := memMarkResolved rs.store code t1,
          cache := mapSet (mapSet rs.cache code m) code
            ({ m with resolved := true, resolvedAt := some t1 }) }, 1) := by
  have hfmt := isValidCodeFormat_of_validateCode hmacBytes secret code hv
  unfold resolveCall
  rw [hfmt, hv]
  simp only [not_true, ite_false, if_neg (by simp : ¬¬(true = true))]
  rw [hcache, hstore]
  simp [hunres]

/-- Shape of a resolve call that hits the cache on an already-resolved
mapping (one-time policy off): no store write, no deletion. -/
theorem resolve_cached_resolved_shape (hmacBytes : String → String → List Nat)
    (secret code : String) (rs : RState) (m2 : MemMapping) (t : Nat)
    (hv : validateCode hmacBytes secret code = true)
    (hcache : mapGet rs.cache code = some m2)
    (hres : m2.resolved = true) :
    resolveCall hmacBytes secret false t rs code =
      (ResolveResp.ok (derefAttr rs.store m2.attrRef),
        { store := rs.store, cache := mapSet rs.cache code m2 }, 0) := by
  have hfmt := isValidCodeFormat_of_validateCode hmacBytes secret code hv
  unfold resolveCall
  rw [hfmt, hv]
  simp only [not_true, ite_false, if_neg (by simp : ¬¬(true = true))]
  rw [hcache]
  simp [hres]

/-- C6: with the one-time policy disabled, two successive resolve calls
on a stored code both return the attribution without error; the first
call stamps `resolved = true` / `resolvedAt = t1` into the store, and the
second call (a cache hit on the resolved mapping) leaves it unchanged. -/
theorem resolve_twice_both_ok (hmacBytes : String → String → List Nat)
    (secret code : String) (rs : RState) (m : MemMapping) (t1 t2 : Nat)
    (hv : validateCode hmacBytes secret code = true)
    (hcache : mapGet rs.cache code = none)
    (hstore : memGetCode rs.store code = some m)
    (hunres : m.resolved = false) :
    ∃ a1 a2,
      (resolveCall hmacBytes secret false t1 rs code).1 = ResolveResp.ok a1 ∧
      memGetCode (resolveCall hmacBytes secret false t1 rs code).2.1.store
        code = some { m with resolved := true, resolvedAt := some t1 } ∧
      (resolveCall hmacBytes secret false t2
        (resolveCall hmacBytes secret false t1 rs code).2.1 code).1 =
          ResolveResp.ok a2 ∧
      memGetCode (resolveCall hmacBytes secret false t2
        (resolveCall hmacBytes secret false t1 rs code).2.1 code).2.1.store
          code = some { m with resolved := true, resolvedAt := some t1 } := by
  have h1 := resolve_first_call_shape hmacBytes secret code rs m t1 hv
    hcache hstore hunres
  have hstore' : mapGet rs.store.codeMappings code = some m := hstore
  have hget1 : memGetCode (memMarkResolved rs.store code t1) code =
      some { m with resolved := true, resolvedAt := some t1 } := by
    show mapGet (mapMarkResolved rs.store.codeMappings code t1) code = _
    rw [mapGet_mapMarkResolved, if_pos rfl, hstore']
    rfl
  have h2 := resolve_cached_resolved_shape hmacBytes secret code
    ({ store := memMarkResolved rs.store code t1,
       cache := mapSet (mapSet rs.cache code m) code
         ({ m with resolved := true, resolvedAt := some t1 }) })
    ({ m with resolved := true, resolvedAt := some t1 }) t2 hv
    (mapGet_mapSet_self _ _ _) rfl
  refine ⟨derefAttr (memMarkResolved rs.store code t1) m.attrRef,
    derefAttr (memMarkResolved rs.store code t1) m.attrRef, ?_, ?_, ?_, ?_⟩
  · rw [h1]
  · rw [h1]
    exact hget1
  · rw [h1]
    rw [h2]
  · rw [h1]
    rw [h2]
    exact hget1

/-- Witness for C6 at the concrete single-mapping state. -/
theorem resolve_twice_both_ok_witness :
    ∃ a1 a2,
      (resolveCall hbConst "s" false 2 rsA codeA).1 = ResolveResp.ok a1 ∧
      memGetCode (resolveCall hbConst "s" false 2 rsA codeA).2.1.store
        codeA = some { storedMappingA with resolved := true, resolvedAt := some 2 } ∧
      (resolveCall hbConst "s" false 3
        (resolveCall hbConst "s" false 2 rsA codeA).2.1 codeA).1 =
          ResolveResp.ok a2 ∧
      memGetCode (resolveCall hbConst "s" false 3
        (resolveCall hbConst "s" false 2 rsA codeA).2.1 codeA).2.1.store
          codeA = some { storedMappingA with resolved := true, resolvedAt := some 2 } :=
  resolve_twice_both_ok hbConst "s" codeA rsA storedMappingA 2 3
    (by decide) (by decide) (by decide) (by decide)

theorem hexDigit_ne_eq (n : Nat) : hexDigit n ≠ '=' := by
  have h : n % 16 < ("0123456789ABCDEF".data).length := Nat.mod_lt _ (by decide)
  unfold hexDigit
  rw [List.getD_eq_getElem _ _ h]
  have hmem := List.getElem_mem h
  intro heq
  rw [heq] at hmem
  exact absurd hmem (by decide)

theorem mem_pctFold (c : Char) : ∀ l : List Nat,
    c ∈ l.foldr (fun b acc => '%' :: hexDigit (b / 16) :: hexDigit b :: acc)
      [] → c = '%' ∨ ∃ n, c = hexDigit n
  | [], h => absurd h (by simp)
  | b :: rest, h => by
      simp only [List.foldr_cons] at h
      rcases List.mem_cons.mp h with rfl | h
      · exact Or.inl rfl
      rcases List.mem_cons.mp h with rfl | h
      · exact Or.inr ⟨b / 16, rfl⟩
      rcases List.mem_cons.mp h with rfl | h
      · exact Or.inr ⟨b, rfl⟩
      · exact mem_pctFold c rest h

/-- `encodeURIComponent` output never contains `'='` (it is escaped to
`%3D`), so a URL built from encoded components carries a query parameter
only where the builder itself wrote one. -/
theorem encodeURIComponent_no_eq (s : String) :
    ∀ c ∈ (encodeURIComponent s).data, c ≠ '=' := by
  intro c hc
  have hc' : c ∈ (s.data.map
      (fun c0 => if isUriUnreserved c0 then [c0] else pctEncodeChar c0)).flatten :=
    hc
  rcases List.mem_flatten.mp hc' with ⟨l, hl, hcl⟩
  rcases List.mem_map.mp hl with ⟨c0, _, rfl⟩
  by_cases hu : isUriUnreserved c0 = true
  · rw [if_pos hu] at hcl
    rcases List.mem_singleton.mp hcl with rfl
    intro heq
    rw [heq] at hu
    exact absurd hu (by decide)
  · rw [if_neg hu] at hcl
    rcases mem_pctFold c _ hcl with h | ⟨n, rfl⟩
    · rw [h]
      decide
    · exact hexDigit_ne_eq n

/-- C7: public/invite destination clicks produce no code and no stored
mapping — `storeCode` is never reached, the attribution heap and
`codeMappings` are untouched, the redirect target carries no `start`
parameter (no `'='` occurs in it at all) — while exactly one ClickLog
entry is still recorded via `logClick`; bot destinations, by contrast,
produce a code and store a fresh unresolved mapping for it (plus their
one click-log entry). -/
theorem tgHandle_code_only_for_bot (hmacBytes : String → String → List Nat)
    (secret : String) (rnd : List Nat) (cfg : SlugConfig) (ctx : ClickCtx)
    (s : MemState) :
    (cfg.type ≠ TgDestType.bot →
      ∃ res s', tgHandle hmacBytes secret rnd cfg ctx s =
          Except.ok (res, s') ∧
        res.code = none ∧
        s'.codeMappings = s.codeMappings ∧
        s'.attrHeap = s.attrHeap ∧
        s'.logHeap.length = s.logHeap.length + 1 ∧
        (∀ c ∈ res.redirectTarget.data, c ≠ '=')) ∧
    (cfg.type = TgDestType.bot → rnd.length = RANDOM_BYTES →
      (∀ p, (hmacBytes secret p).length = 32) →
      ∃ code res s', tgHandle hmacBytes secret rnd cfg ctx s =
          Except.ok (res, s') ∧
        res.code = some code ∧
        memGetCode s' code = some
          { code := code
            attrRef := s.attrHeap.length
            botUsername := cfg.destination
            createdAt := ctx.timestamp
            resolved := false
            resolvedAt := none } ∧
        s'.logHeap.length = s.logHeap.length + 1) := by
  constructor
  · intro hty
    unfold tgHandle
    rw [if_neg hty]
    refine ⟨_, _, rfl, rfl, rfl, rfl, ?_, ?_⟩
    · show (s.logHeap ++ [_]).length = s.logHeap.length + 1
      rw [List.length_append]
      rfl
    · intro c hc
      have hpre13 : ∀ c0 ∈ "https://t.me/".data, c0 ≠ '=' := by decide
      have hpre14 : ∀ c0 ∈ "https://t.me/+".data, c0 ≠ '=' := by decide
      cases htype : cfg.type with
      | bot => exact absurd htype hty
      | public =>
          rw [htype] at hc
          simp only [getDirectRedirectUrl, buildFallbackUrl,
            String.data_append] at hc
          rcases List.mem_append.mp hc with h | h
          · exact hpre13 c h
          · exact encodeURIComponent_no_eq cfg.destination c h
      | invite =>
          rw [htype] at hc
          simp only [getDirectRedirectUrl, buildFallbackUrl,
            String.data_append] at hc
          rcases List.mem_append.mp hc with h | h
          · exact hpre14 c h
          · exact encodeURIComponent_no_eq cfg.destination c h
  · intro hty h1 h2
    unfold tgHandle
    rw [if_pos hty, generateCode_eq_ok hmacBytes secret rnd h1 h2]
    refine ⟨_, _, _, rfl, rfl, ?_, ?_⟩
    · show mapGet (mapSet _ _ _) _ = _
      exact mapGet_mapSet_self _ _ _
    · show (s.logHeap ++ [_]).length = s.logHeap.length + 1
      rw [List.length_append]
      rfl

/-- Witness for C7: a public click on the empty store, and a bot click. -/
theorem tgHandle_code_only_for_bot_witness :
    (∃ res s', tgHandle hbConst "s" [] cfgCommunity ctx0 memEmpty =
        Except.ok (res, s') ∧
      res.code = none ∧
      s'.codeMappings = memEmpty.codeMappings ∧
      s'.attrHeap = memEmpty.attrHeap ∧
      s'.logHeap.length = memEmpty.logHeap.length + 1 ∧
      (∀ c ∈ res.redirectTarget.data, c ≠ '=')) ∧
    (∃ code res s', tgHandle hbConst "s" (List.replicate 16 0) cfgSales ctx0
        memEmpty = Except.ok (res, s') ∧
      res.code = some code ∧
      memGetCode s' code = some
        { code := code
          attrRef := memEmpty.attrHeap.length
          botUsername := cfgSales.destination
          createdAt := ctx0.timestamp
          resolved := false
          resolvedAt := none } ∧
      s'.logHeap.length = memEmpty.logHeap.length + 1) :=
  ⟨(tgHandle_code_only_for_bot hbConst "s" [] cfgCommunity ctx0 memEmpty).1
      (by decide),
    (tgHandle_code_only_for_bot hbConst "s" (List.replicate 16 0) cfgSales
      ctx0 memEmpty).2 (by decide) (by decide) (fun _ => by simp [hbConst])⟩

theorem mem_mapSet {α : Type} (M : List (String × α)) (k : String) (v : α)
    (p : String × α) (h : p ∈ mapSet M k v) : p = (k, v) ∨ p ∈ M := by
  unfold mapSet at h
  by_cases hany : M.any (·.1 == k) = true
  · rw [if_pos hany] at h
    rcases List.mem_map.mp h with ⟨q, hq, hfq⟩
    by_cases hqk : (q.1 == k) = true
    · rw [if_pos hqk] at hfq
      exact Or.inl hfq.symm
    · rw [if_neg hqk] at hfq
      exact Or.inr (hfq ▸ hq)
  · rw [if_neg hany] at h
    rcases List.mem_append.mp h with h | h
    · exact Or.inr h
    · exact Or.inl (List.mem_singleton.mp h)

theorem mem_of_mapGet {α : Type} (M : List (String × α)) (k : String)
    (v : α) (h : mapGet M k = some v) : (k, v) ∈ M := by
  unfold mapGet at h
  cases hf : M.find? (·.1 == k) with
  | none =>
      rw [hf] at h
      exact absurd h (by simp)
  | some q =>
      rw [hf] at h
      have hq := List.mem_of_find?_eq_some hf
      have hk := List.find?_some hf
      have hv : q.2 = v := by simpa using h
      have hk' : q.1 = k := by simpa using hk
      have : q = (k, v) := Prod.ext hk' hv
      exact this ▸ hq

theorem storeInv_of_reachable (t : Nat) (M : List (String × MemMapping))
    (h : ReachableStore t M) : StoreInv t M := by
  induction h with
  | init t0 =>
      intro p hp
      exact absurd hp (by simp)
  | tick t' _ hle ih =>
      intro p hp
      exact ⟨Nat.le_trans (ih p hp).1 hle, (ih p hp).2⟩
  | store code attrRef botUsername _ ih =>
      intro p hp
      rcases mem_mapSet _ _ _ p hp with rfl | hp'
      · exact ⟨Nat.le_refl _, fun hres => absurd hres Bool.false_ne_true⟩
      · exact ih p hp'
  | mark code _ ih =>
      intro p hp
      unfold mapMarkResolved at hp
      cases hg : mapGet _ code with
      | none =>
          rw [hg] at hp
          exact ih p hp
      | some m =>
          rw [hg] at hp
          rcases mem_mapSet _ _ _ p hp with rfl | hp'
          · have hm := ih (code, m) (mem_of_mapGet _ _ _ hg)
            exact ⟨hm.1, fun _ => ⟨_, rfl, hm.1⟩⟩
          · exact ih p hp'
  | del code _ ih =>
      intro p hp
      exact ih p (List.mem_filter.mp hp).1

/-- C5: in every reachable store state, a mapping with `resolved = true`
has `resolvedAt` set and `resolvedAt ≥ createdAt`; the invariant is
established at store time (the orchestrator stores mappings unresolved
with `createdAt` at the current clock) and preserved by `markResolved`
under the monotonic clock. -/
theorem resolved_implies_resolvedAt_ge_createdAt (t : Nat)
    (M : List (String × MemMapping)) (h : ReachableStore t M)
    (code : String) (m : MemMapping) (hget : mapGet M code = some m)
    (hres : m.resolved = true) :
    ∃ r, m.resolvedAt = some r ∧ m.createdAt ≤ r :=
  ((storeInv_of_reachable t M h) (code, m) (mem_of_mapGet M code m hget)).2
    hres

/-- Witness for C5 along the concrete trace store-at-1, tick-to-2,
mark-at-2. -/
theorem resolved_implies_resolvedAt_ge_createdAt_witness :
    ∃ r, ({ rowC5 with resolved := true, resolvedAt := some 2 } :
        MemMapping).resolvedAt = some r ∧
      ({ rowC5 with resolved := true, resolvedAt := some 2 } :
        MemMapping).createdAt ≤ r := by
  have h0 : ReachableStore 1 ([] : List (String × MemMapping)) :=
    ReachableStore.init 1
  have h1 : ReachableStore 1 (mapSet [] "C" rowC5) :=
    ReachableStore.store "C" 0 "SalesBot" h0
  have h2 : ReachableStore 2 (mapSet [] "C" rowC5) :=
    ReachableStore.tick 2 h1 (by decide)
  have h3 : ReachableStore 2 storeC5 := ReachableStore.mark "C" h2
  exact resolved_implies_resolvedAt_ge_createdAt 2 storeC5 h3 "C"
    ({ rowC5 with resolved := true, resolvedAt := some 2 }) (by decide)
    (by decide)

end TelegramRedirect
